import Mathlib

/-!
Verification of the job-scheduling core of the nextbox daemon
(`nextbox_daemon/jobs.py`): the `BaseJob` timing contract, the
`BackupRestoreJob` resumable state machine, and the `JobManager`
registry/dispatch.  Timestamps are modelled as natural numbers of seconds;
the status board (an external collaborator whose code is not part of the
sources) is modelled from its interface contract in the spec.
-/

namespace Nextbox

/-! ### Data model -/

/-- The `timedelta.seconds` component of a non-negative time difference in
Python: the whole-days part is discarded, only the seconds-within-a-day
remain.  This is what `(dt.now() - self.last_run).seconds` computes in
`BaseJob.is_due` when the clock has not gone backwards. -/
def timedeltaSeconds (elapsed : Nat) : Nat :=
  elapsed % 86400

/-- The mutable timing state of `BaseJob`: `self.interval` (an optional
number of seconds, `None` meaning not eligible for recurring dispatch) and
`self.last_run` (a timestamp in seconds). -/
structure JobState where
  interval : Option Nat
  last_run : Nat
  deriving Repr, DecidableEq

/-- `BaseJob.is_due`: `False` if `self.interval is None`, otherwise
`(dt.now() - self.last_run).seconds > self.interval`.  `now` is the value of
`dt.now()` at the call, at or after `last_run` (the clock is monotone and
`last_run` always holds a past `dt.now()`). -/
def is_due (s : JobState) (now : Nat) : Bool :=
  match s.interval with
  | none => false
  | some i => timedeltaSeconds (now - s.last_run) > i

/-- A string-keyed mapping with string values, as a sequence of key-value
pairs looked up front-to-back.  Used both for job kwargs and for board
records. -/
abbrev StrMap := List (String × String)

/-- Dictionary lookup: the value of the first pair whose key matches, if
any.  Models `d[k]` / `d.get(k)` / `k in d` on a Python dict. -/
def StrMap.get (m : StrMap) (key : String) : Option String :=
  (m.find? (fun p => p.1 == key)).map (fun p => p.2)

/-- Modelled from the spec: the Status Board, an external collaborator whose
code is not among the sources.  A mapping from topic name to the most recent
record for that topic, plus an unbounded message queue. -/
structure Board where
  topics : List (String × StrMap)
  messages : List String
  deriving Repr, DecidableEq

/-- The record currently stored for a topic, if any. -/
def Board.getTopic (b : Board) (topic : String) : Option StrMap :=
  (b.topics.find? (fun p => p.1 == topic)).map (fun p => p.2)

/-- Modelled from the spec: `board.set(topic, record)` replaces the record
for the topic wholesale. -/
def Board.set (b : Board) (topic : String) (record : StrMap) : Board :=
  { b with topics := (topic, record) :: b.topics.filter (fun p => p.1 != topic) }

/-- Modelled from the spec: `board.update(topic, partialRecord)` merges the
partial record into the existing record (new fields take precedence, other
existing fields survive), creating the record if absent. -/
def Board.update (b : Board) (topic : String) (record : StrMap) : Board :=
  match b.getTopic topic with
  | none => b.set topic record
  | some old => b.set topic (record ++ old)

/-- Modelled from the spec: `board.messages.put(text)` appends a diagnostic
string to the unbounded message queue. -/
def Board.putMessage (b : Board) (text : String) : Board :=
  { b with messages := b.messages ++ [text] }

/-! ### BaseJob.run -/

/-- The shape of a job execution body (`_run(self, cfg, board, kwargs)`): it
transforms the timing state and the board and optionally signals an
exception (the `Option String` component).  State mutations made before an
exception persist, as in Python.  The shared `cfg` is not consulted by any
behaviour under verification and is omitted. -/
abbrev JobBody := StrMap → Board → JobState → JobState × Board × Option String

/-- `BaseJob.run(cfg, board, kwargs)`: records the start timestamp
(`self.last_run = dt.now()`) and then invokes the execution body on the
updated state; an exception from the body propagates (it is caught only at
the manager boundary). -/
def BaseJob.run (body : JobBody) (now : Nat) (kwargs : StrMap) (board : Board)
    (s : JobState) : JobState × Board × Option String :=
  body kwargs board { s with last_run := now }

/-- The body of `BaseJob._run`, which unconditionally raises
`NotImplementedError`. -/
def BaseJob.raise_body : JobBody :=
  fun _ board s => (s, board, some "NotImplementedError")

/-- The body of `LEDJob._run`, which sets `self.interval = None`. -/
def LEDJob.body : JobBody :=
  fun _ board s => ({ s with interval := none }, board, none)

/-! ### BackupRestoreJob -/

/-- One progress record yielded by the backup/restore engine:
`(state, (who, what), percent)`.  The percent is kept as a string, matching
the record values published to the board. -/
abbrev Progress := String × (String × String) × String

/-- The state of `BackupRestoreJob`: the `BaseJob` timing fields plus
`self.iterator`, absent when idle and holding the remaining progress
records of the running operation otherwise.  (A present-but-exhausted
Python generator is truthy, hence `some []` is distinct from `none`.) -/
structure BackupRestoreJob where
  interval : Option Nat
  last_run : Nat
  iterator : Option (List Progress)
  deriving Repr, DecidableEq

/-- Diagnostic message pushed when a start request lacks `tar_path` or
`mode` (quotation marks of the original text elided). -/
def missing_args_msg : String :=
  "Requested starting BackupRestore-Job without tar_path and/or mode arg"

/-- Diagnostic message pushed when `mode` is neither `backup` nor
`restore` (quotation marks of the original text elided). -/
def bad_mode_msg : String :=
  "mode arg needs to be either backup or restore"

/-- The body of `BackupRestoreJob._run`.  `full_export` / `full_import` are
the lazy progress sequences of the external `RawBackupRestore` engine
(`self.ctrl`), passed as parameters since their code is not among the
sources.  Branch order follows the source: with no iterator, validate
kwargs (push a diagnostic and return on failure), else publish the starting
record via `board.update`, create the iterator and set `interval = 1`; with
an iterator, pull exactly one record and publish it via `board.set`, or on
`StopIteration` clear the iterator and set `interval = None`. -/
def BackupRestoreJob.runBody (full_export full_import : String → List Progress)
    (kwargs : StrMap) (board : Board) (s : BackupRestoreJob) :
    BackupRestoreJob × Board :=
  match s.iterator with
  | none =>
    match kwargs.get "tar_path", kwargs.get "mode" with
    | none, _ => (s, board.putMessage missing_args_msg)
    | some _, none => (s, board.putMessage missing_args_msg)
    | some tar_path, some mode =>
      if mode = "backup" ∨ mode = "restore" then
        ({ s with
            iterator := some (if mode = "backup" then full_export tar_path
                              else full_import tar_path),
            interval := some 1 },
         board.update "backup_restore"
           [("state", "starting"), ("percent", "0"), ("who", "all"),
            ("tar_path", tar_path),
            ("what", if mode = "backup" then "export" else "import"),
            ("mode", mode)])
      else
        (s, board.putMessage bad_mode_msg)
  | some [] =>
      ({ s with iterator := none, interval := none }, board)
  | some ((state, (who, what), percent) :: rest) =>
      ({ s with iterator := some rest },
       board.set "backup_restore"
         [("state", state), ("who", who), ("what", what), ("percent", percent)])

/-- A full invocation of the `BackupRestoreJob` through `BaseJob.run`:
the start timestamp is recorded, then the body executes.  The body never
raises (`StopIteration` is caught inside it), so no exception component is
produced. -/
def BackupRestoreJob.run (full_export full_import : String → List Progress)
    (now : Nat) (kwargs : StrMap) (board : Board) (s : BackupRestoreJob) :
    BackupRestoreJob × Board :=
  BackupRestoreJob.runBody full_export full_import kwargs board
    { s with last_run := now }

/-! ### JobManager -/

/-- The job registry and dispatcher: an insertion-ordered mapping from job
name to the single live job instance (a Python dict), plus the shared
board.  Generic in the job representation `J`. -/
structure JobManager (J : Type) where
  jobs : List (String × J)
  board : Board

/-- Registry lookup (`self.jobs[name]` / `name in self.jobs`): the first
entry under the name, if any. -/
def JobManager.lookup {J : Type} (m : JobManager J) (name : String) : Option J :=
  (m.jobs.find? (fun p => p.1 == name)).map (fun p => p.2)

/-- `JobManager.register_job`: store the instance under its name; assigning
to an existing key of a Python dict overwrites the value in place (keeping
the original position, with a warning logged), otherwise the entry is
appended. -/
def JobManager.register_job {J : Type} (m : JobManager J) (name : String)
    (job : J) : JobManager J :=
  if m.jobs.any (fun p => p.1 == name) then
    { m with jobs := m.jobs.map (fun p => if p.1 == name then (name, job) else p) }
  else
    { m with jobs := m.jobs ++ [(name, job)] }

/-- `JobManager.handle_job(job_name, job_kwargs)`: if the name is not
registered, log an error and return; otherwise invoke the job through
`run`, whose state and board effects persist, while any exception it
signals (the discarded `Option String` component) is caught and logged at
this boundary and never propagates. -/
def JobManager.handle_job {J : Type}
    (run : J → StrMap → Board → Nat → J × Board × Option String)
    (m : JobManager J) (job_name : String) (job_kwargs : StrMap) (now : Nat) :
    JobManager J :=
  match m.lookup job_name with
  | none => m
  | some job =>
    let r := run job job_kwargs m.board now
    { jobs := m.jobs.map (fun p => if p.1 == job_name then (job_name, r.1) else p),
      board := r.2.1 }

/-- The scan of `JobManager.get_recurring_job`: walk the registered jobs in
registration order and return the name of the first job whose due-check
holds. -/
def scan_due {J : Type} (isDue : J → Nat → Bool) :
    List (String × J) → Nat → Option String
  | [], _ => none
  | (name, job) :: rest, now =>
    if isDue job now then some name else scan_due isDue rest now

/-- `JobManager.get_recurring_job`: the name of the first registered job
that is due, or nothing.  It only reads; the manager and the jobs are left
untouched (the function returns nothing but the name). -/
def JobManager.get_recurring_job {J : Type} (isDue : J → Nat → Bool)
    (m : JobManager J) (now : Nat) : Option String :=
  scan_due isDue m.jobs now

/-! ### Helper lemmas -/

/-- Lookup distributes over append: the left map wins on common keys. -/
theorem StrMap.get_append (m1 m2 : StrMap) (k : String) :
    StrMap.get (m1 ++ m2) k = ((StrMap.get m1 k).map some).getD (StrMap.get m2 k) := by
  induction m1 with
  | nil => simp [StrMap.get]
  | cons hd tl ih =>
    by_cases h : hd.1 == k
    · simp [StrMap.get, List.find?, h]
    · simp only [Bool.not_eq_true] at h
      simp only [StrMap.get, List.cons_append, List.find?, h] at *
      simpa using ih

/-- After a `set`, the topic holds exactly the record just written. -/
theorem Board.getTopic_set (b : Board) (t : String) (r : StrMap) :
    (b.set t r).getTopic t = some r := by
  simp [Board.set, Board.getTopic, List.find?]

/-- `set` leaves the message queue untouched. -/
theorem Board.messages_set (b : Board) (t : String) (r : StrMap) :
    (b.set t r).messages = b.messages := rfl

/-- `update` leaves the message queue untouched. -/
theorem Board.messages_update (b : Board) (t : String) (r : StrMap) :
    (b.update t r).messages = b.messages := by
  unfold Board.update
  cases b.getTopic t <;> rfl

/-! ### Claims C1 / C9: the due-check -/

/-- C9: with a non-null interval, `is_due` compares only the
seconds-within-a-day component of the elapsed time: after `d` whole days
plus `t` seconds it returns `i < t`, regardless of `d`; and a job whose
interval is 86400 seconds or more is never due. -/
theorem is_due_discards_days (i r d t : Nat) (ht : t < 86400) :
    is_due ⟨some i, r⟩ (r + (d * 86400 + t)) = decide (i < t) ∧
    (86400 ≤ i → ∀ now : Nat, is_due ⟨some i, r⟩ now = false) := by
  constructor
  · simp only [is_due, timedeltaSeconds]
    have h1 : r + (d * 86400 + t) - r = d * 86400 + t := by omega
    have h2 : (d * 86400 + t) % 86400 = t := by
      rw [Nat.add_comm, Nat.add_mul_mod_self_right, Nat.mod_eq_of_lt ht]
    simp only [h1, h2, gt_iff_lt]
  · intro hi now
    simp only [is_due, timedeltaSeconds, decide_eq_false_iff_not, Nat.not_lt]
    have := Nat.mod_lt (now - r) (show 0 < 86400 by omega)
    omega

/-- C9 witness: a job with interval 5 whose last run was exactly one day and
three seconds ago is not due (the day is discarded, 3 ≤ 5). -/
theorem is_due_discards_days_witness :
    is_due ⟨some 5, 0⟩ 86403 = false := by
  have h := is_due_discards_days 5 0 1 3 (by decide)
  simpa using h.1

/-- C1 counterexample: the claim says `is_due` is true iff the elapsed time
strictly exceeds the interval; here 86400 seconds have elapsed on a job with
interval 5, yet `is_due` is `false` (the elapsed whole day is discarded). -/
theorem is_due_elapsed_counterexample :
    (86400 : Nat) - 0 > 5 ∧ is_due ⟨some 5, 0⟩ 86400 = false := by
  constructor
  · decide
  · simp [is_due, timedeltaSeconds]

/-- C1 amended: `is_due` returns `false` when the interval is null,
regardless of elapsed time; otherwise it returns true iff the
seconds-within-a-day component of the elapsed time strictly exceeds the
interval — equivalently, iff the elapsed time strictly exceeds the interval
whenever less than one full day has elapsed.  The call has no side effects
(here it is a pure function of the state; it writes neither field). -/
theorem is_due_spec (i r now : Nat) (hle : r ≤ now) :
    is_due ⟨none, r⟩ now = false ∧
    is_due ⟨some i, r⟩ now = decide (i < timedeltaSeconds (now - r)) ∧
    (now - r < 86400 → is_due ⟨some i, r⟩ now = decide (i < now - r)) := by
  refine ⟨rfl, rfl, fun hlt => ?_⟩
  simp only [is_due, timedeltaSeconds, Nat.mod_eq_of_lt hlt, gt_iff_lt]

/-- C1 amended, witness: 10 seconds after a run, a job with interval 3 is
due and a job with null interval is not. -/
theorem is_due_spec_witness :
    is_due ⟨none, 0⟩ 10 = false ∧ is_due ⟨some 3, 0⟩ 10 = true := by
  have h := is_due_spec 3 0 10 (by decide)
  refine ⟨h.1, ?_⟩
  rw [h.2.2 (by decide)]
  decide

/-! ### Claim C5: run records the timestamp before the body executes -/

/-- C5: `run` hands the execution body a state whose `last_run` is the
current time, so the timestamp update happens before the body runs; for any
body that does not itself write `last_run` (no job in the program does) the
update persists in the result — including when the body signals an
exception, since the conclusion holds whatever the `Option String` error
component is.  Consequently `is_due` is false at the completion time, and
false at every instant up to one full interval after the attempt, so a
failing job is not retried sooner than one interval later. -/
theorem run_timestamp_first (body : JobBody)
    (hbody : ∀ k b st, ((body k b st).1).last_run = st.last_run)
    (now : Nat) (kwargs : StrMap) (board : Board) (s : JobState) :
    BaseJob.run body now kwargs board s = body kwargs board { s with last_run := now } ∧
    (BaseJob.run body now kwargs board s).1.last_run = now ∧
    is_due (BaseJob.run body now kwargs board s).1 now = false ∧
    (∀ i, (BaseJob.run body now kwargs board s).1.interval = some i →
      ∀ now' : Nat, now' - now ≤ i →
        is_due (BaseJob.run body now kwargs board s).1 now' = false) := by
  have hlr : (BaseJob.run body now kwargs board s).1.last_run = now := by
    unfold BaseJob.run
    rw [hbody]
  refine ⟨rfl, hlr, ?_, ?_⟩
  · unfold is_due
    cases hi : (BaseJob.run body now kwargs board s).1.interval with
    | none => rfl
    | some i =>
      simp only [timedeltaSeconds, hlr, gt_iff_lt, decide_eq_false_iff_not, Nat.not_lt]
      omega
  · intro i hi now' hle
    unfold is_due
    rw [hi]
    simp only [timedeltaSeconds, hlr, gt_iff_lt, decide_eq_false_iff_not, Nat.not_lt]
    have := Nat.mod_le (now' - now) 86400
    omega

/-- C5 witness: running the abstract `BaseJob` body (which raises
`NotImplementedError`) still persists the timestamp update, and the job is
not due right afterwards nor one second later with interval 1. -/
theorem run_timestamp_first_witness :
    (BaseJob.run BaseJob.raise_body 100 [] ⟨[], []⟩ ⟨some 1, 7⟩).1.last_run = 100 ∧
    is_due (BaseJob.run BaseJob.raise_body 100 [] ⟨[], []⟩ ⟨some 1, 7⟩).1 100 = false ∧
    is_due (BaseJob.run BaseJob.raise_body 100 [] ⟨[], []⟩ ⟨some 1, 7⟩).1 101 = false ∧
    (BaseJob.run BaseJob.raise_body 100 [] ⟨[], []⟩ ⟨some 1, 7⟩).2.2 = some "NotImplementedError" := by
  have h := run_timestamp_first BaseJob.raise_body (fun _ _ _ => rfl) 100 [] ⟨[], []⟩ ⟨some 1, 7⟩
  exact ⟨h.2.1, h.2.2.1, h.2.2.2 1 rfl 101 (by decide), rfl⟩

/-! ### Claim C2: one progress record per invocation -/

/-- C2: invoked while a progress sequence is active, the job pulls exactly
one record from it; on a record `(state, (who, what), percent)` it publishes
`{state, who, what, percent}` to topic `backup_restore` with replace
semantics (`board.set`), keeping the sequence active and the interval
unchanged; on exhaustion it clears the sequence handle, sets the interval
to null and publishes nothing (the board is returned untouched).  The
kwargs are ignored in both cases. -/
theorem backup_restore_one_step (fe fi : String → List Progress)
    (kwargs : StrMap) (board : Board) (s : BackupRestoreJob) (now : Nat)
    (it : List Progress) (hit : s.iterator = some it) :
    (∀ state who what percent rest, it = (state, (who, what), percent) :: rest →
      BackupRestoreJob.run fe fi now kwargs board s =
        ({ s with last_run := now, iterator := some rest },
         board.set "backup_restore"
           [("state", state), ("who", who), ("what", what), ("percent", percent)])) ∧
    (it = [] →
      BackupRestoreJob.run fe fi now kwargs board s =
        ({ s with last_run := now, iterator := none, interval := none }, board)) := by
  constructor
  · rintro state who what percent rest rfl
    simp only [BackupRestoreJob.run, BackupRestoreJob.runBody, hit]
  · rintro rfl
    simp only [BackupRestoreJob.run, BackupRestoreJob.runBody, hit]

/-- C2 witness: with a single pending record the invocation publishes it
and advances to the empty (but still active) sequence. -/
theorem backup_restore_one_step_witness :
    BackupRestoreJob.run (fun _ => []) (fun _ => []) 50 [] ⟨[], []⟩
      ⟨some 1, 0, some [("running", ("a", "files"), "10")]⟩ =
      (⟨some 1, 50, some []⟩,
       Board.set ⟨[], []⟩ "backup_restore"
         [("state", "running"), ("who", "a"), ("what", "files"), ("percent", "10")]) := by
  have h := backup_restore_one_step (fun _ => []) (fun _ => []) [] ⟨[], []⟩
    ⟨some 1, 0, some [("running", ("a", "files"), "10")]⟩ 50
    [("running", ("a", "files"), "10")] rfl
  exact h.1 "running" "a" "files" "10" [] rfl

/-! ### Claim C3: starting a backup or restore -/

/-- C3: invoked while idle with kwargs holding a `tar_path` and a valid
`mode`, the job publishes the initial `backup_restore` record with state
`starting`, percent `0`, who `all`, the given path, what `export` for a
backup and `import` for a restore, and the given mode; it installs the
export sequence for a backup and the import sequence for a restore — whole,
so no progress record has been pulled —, sets the interval to 1, and pushes
no diagnostic message. -/
theorem backup_restore_start (fe fi : String → List Progress) (now : Nat)
    (kwargs : StrMap) (board : Board) (s : BackupRestoreJob)
    (tar_path mode : String)
    (hidle : s.iterator = none)
    (htar : kwargs.get "tar_path" = some tar_path)
    (hmode : kwargs.get "mode" = some mode)
    (hvalid : mode = "backup" ∨ mode = "restore") :
    (BackupRestoreJob.run fe fi now kwargs board s).1 =
      { s with last_run := now, interval := some 1,
               iterator := some (if mode = "backup" then fe tar_path
                                 else fi tar_path) } ∧
    (∃ record,
      (BackupRestoreJob.run fe fi now kwargs board s).2.getTopic "backup_restore" =
        some record ∧
      record.get "state" = some "starting" ∧
      record.get "percent" = some "0" ∧
      record.get "who" = some "all" ∧
      record.get "tar_path" = some tar_path ∧
      record.get "what" = some (if mode = "backup" then "export" else "import") ∧
      record.get "mode" = some mode) ∧
    (BackupRestoreJob.run fe fi now kwargs board s).2.messages = board.messages := by
  have hrun : BackupRestoreJob.run fe fi now kwargs board s =
      ({ s with last_run := now, interval := some 1,
                iterator := some (if mode = "backup" then fe tar_path
                                  else fi tar_path) },
       board.update "backup_restore"
         [("state", "starting"), ("percent", "0"), ("who", "all"),
          ("tar_path", tar_path),
          ("what", if mode = "backup" then "export" else "import"),
          ("mode", mode)]) := by
    simp only [BackupRestoreJob.run, BackupRestoreJob.runBody, hidle, htar, hmode]
    rw [if_pos hvalid]
  rw [hrun]
  refine ⟨rfl, ?_, Board.messages_update board _ _⟩
  have hfields : ∀ old : StrMap,
      StrMap.get ([("state", "starting"), ("percent", "0"), ("who", "all"),
        ("tar_path", tar_path),
        ("what", if mode = "backup" then "export" else "import"),
        ("mode", mode)] ++ old) "state" = some "starting" ∧
      StrMap.get ([("state", "starting"), ("percent", "0"), ("who", "all"),
        ("tar_path", tar_path),
        ("what", if mode = "backup" then "export" else "import"),
        ("mode", mode)] ++ old) "percent" = some "0" ∧
      StrMap.get ([("state", "starting"), ("percent", "0"), ("who", "all"),
        ("tar_path", tar_path),
        ("what", if mode = "backup" then "export" else "import"),
        ("mode", mode)] ++ old) "who" = some "all" ∧
      StrMap.get ([("state", "starting"), ("percent", "0"), ("who", "all"),
        ("tar_path", tar_path),
        ("what", if mode = "backup" then "export" else "import"),
        ("mode", mode)] ++ old) "tar_path" = some tar_path ∧
      StrMap.get ([("state", "starting"), ("percent", "0"), ("who", "all"),
        ("tar_path", tar_path),
        ("what", if mode = "backup" then "export" else "import"),
        ("mode", mode)] ++ old) "what" =
          some (if mode = "backup" then "export" else "import") ∧
      StrMap.get ([("state", "starting"), ("percent", "0"), ("who", "all"),
        ("tar_path", tar_path),
        ("what", if mode = "backup" then "export" else "import"),
        ("mode", mode)] ++ old) "mode" = some mode := by
    intro old
    refine ⟨?_, ?_, ?_, ?_, ?_, ?_⟩ <;> simp [StrMap.get, List.find?]
  unfold Board.update
  cases hb : board.getTopic "backup_restore" with
  | none =>
    refine ⟨_, Board.getTopic_set _ _ _, ?_⟩
    have h := hfields []
    simpa using h
  | some old =>
    exact ⟨_, Board.getTopic_set _ _ _, hfields old⟩

/-- C3 witness: a start request with mode `backup` and path `/tmp/x.tar` on
an idle job installs the export sequence, sets interval 1 and publishes the
starting record. -/
theorem backup_restore_start_witness :
    (BackupRestoreJob.run (fun _ => [("running", ("a", "files"), "10")]) (fun _ => [])
        5 [("tar_path", "/tmp/x.tar"), ("mode", "backup")] ⟨[], []⟩ ⟨none, 0, none⟩).1 =
      ⟨some 1, 5, some [("running", ("a", "files"), "10")]⟩ ∧
    (∃ record,
      (BackupRestoreJob.run (fun _ => [("running", ("a", "files"), "10")]) (fun _ => [])
          5 [("tar_path", "/tmp/x.tar"), ("mode", "backup")] ⟨[], []⟩
          ⟨none, 0, none⟩).2.getTopic "backup_restore" = some record ∧
      record.get "state" = some "starting" ∧
      record.get "percent" = some "0" ∧
      record.get "mode" = some "backup") := by
  have h := backup_restore_start (fun _ => [("running", ("a", "files"), "10")])
    (fun _ => []) 5 [("tar_path", "/tmp/x.tar"), ("mode", "backup")] ⟨[], []⟩
    ⟨none, 0, none⟩ "/tmp/x.tar" "backup" rfl rfl rfl (Or.inl rfl)
  obtain ⟨h1, ⟨record, hrec, hs, hp, _, _, _, hm⟩, _⟩ := h
  exact ⟨h1, record, hrec, hs, hp, hm⟩

/-! ### Claim C7: rejected start requests -/

/-- C7: invoked while idle with kwargs missing `tar_path` or `mode`, or with
a mode other than `backup`/`restore`, the job pushes exactly one diagnostic
message to the message queue and changes nothing else: interval and
iterator are untouched (only the `run` timestamp is recorded) and no board
topic record is written. -/
theorem backup_restore_invalid_start (fe fi : String → List Progress) (now : Nat)
    (kwargs : StrMap) (board : Board) (s : BackupRestoreJob)
    (hidle : s.iterator = none)
    (hbad : kwargs.get "tar_path" = none ∨ kwargs.get "mode" = none ∨
      (∃ mode, kwargs.get "mode" = some mode ∧ ¬(mode = "backup" ∨ mode = "restore"))) :
    ∃ msg, BackupRestoreJob.run fe fi now kwargs board s =
      ({ s with last_run := now },
       { board with messages := board.messages ++ [msg] }) := by
  rcases hbad with h | h | ⟨mode, hm, hinv⟩
  · exact ⟨missing_args_msg,
      by simp only [BackupRestoreJob.run, BackupRestoreJob.runBody, hidle, h]; rfl⟩
  · cases ht : kwargs.get "tar_path" with
    | none => exact ⟨missing_args_msg,
        by simp only [BackupRestoreJob.run, BackupRestoreJob.runBody, hidle, ht]; rfl⟩
    | some tar_path => exact ⟨missing_args_msg,
        by simp only [BackupRestoreJob.run, BackupRestoreJob.runBody, hidle, ht, h]; rfl⟩
  · cases ht : kwargs.get "tar_path" with
    | none => exact ⟨missing_args_msg,
        by simp only [BackupRestoreJob.run, BackupRestoreJob.runBody, hidle, ht]; rfl⟩
    | some tar_path =>
      refine ⟨bad_mode_msg, ?_⟩
      simp only [BackupRestoreJob.run, BackupRestoreJob.runBody, hidle, ht, hm]
      rw [if_neg hinv]
      rfl

/-- C7 witness: a start request with the invalid mode `delete` on an idle
job with a null interval leaves the state unchanged apart from the
timestamp, creates no sequence, and pushes exactly one message. -/
theorem backup_restore_invalid_start_witness :
    ∃ msg, BackupRestoreJob.run (fun _ => []) (fun _ => []) 9
        [("tar_path", "/tmp/x.tar"), ("mode", "delete")] ⟨[], []⟩ ⟨none, 0, none⟩ =
      (⟨none, 9, none⟩, { topics := [], messages := [] ++ [msg] }) := by
  have h := backup_restore_invalid_start (fun _ => []) (fun _ => []) 9
    [("tar_path", "/tmp/x.tar"), ("mode", "delete")] ⟨[], []⟩ ⟨none, 0, none⟩ rfl
    (Or.inr (Or.inr ⟨"delete", rfl, by decide⟩))
  exact h

/-! ### Claim C10: merge on start, replace on progress -/

/-- C10: the initial `starting` record is published with merge semantics
(`board.update`), so a field already stored under the topic before the
start call survives the initial publish; every subsequent progress record
is published with replace semantics (`board.set`), so after the first
progress record of an operation the `tar_path` and `mode` fields — and the
leftover field — are gone from the topic record. -/
theorem backup_restore_merge_then_replace (fe fi : String → List Progress)
    (now now' : Nat) (kwargs : StrMap) (board : Board) (s : BackupRestoreJob)
    (tar_path mode k v : String) (old : StrMap)
    (hidle : s.iterator = none)
    (htar : kwargs.get "tar_path" = some tar_path)
    (hmode : kwargs.get "mode" = some mode)
    (hvalid : mode = "backup" ∨ mode = "restore")
    (hold : board.getTopic "backup_restore" = some old)
    (holdk : old.get k = some v)
    (hk1 : k ≠ "state") (hk2 : k ≠ "percent") (hk3 : k ≠ "who")
    (hk4 : k ≠ "tar_path") (hk5 : k ≠ "what") (hk6 : k ≠ "mode")
    (p : Progress) (rest : List Progress)
    (hseq : (if mode = "backup" then fe tar_path else fi tar_path) = p :: rest) :
    (∃ rec1,
      (BackupRestoreJob.run fe fi now kwargs board s).2.getTopic "backup_restore" =
        some rec1 ∧
      rec1.get "tar_path" = some tar_path ∧
      rec1.get "mode" = some mode ∧
      rec1.get k = some v) ∧
    (∃ rec2,
      (BackupRestoreJob.run fe fi now' kwargs
          (BackupRestoreJob.run fe fi now kwargs board s).2
          (BackupRestoreJob.run fe fi now kwargs board s).1).2.getTopic
        "backup_restore" = some rec2 ∧
      rec2.get "tar_path" = none ∧
      rec2.get "mode" = none ∧
      rec2.get k = none) := by
  have b1 : ("state" == k) = false := beq_eq_false_iff_ne.mpr (Ne.symm hk1)
  have b2 : ("percent" == k) = false := beq_eq_false_iff_ne.mpr (Ne.symm hk2)
  have b3 : ("who" == k) = false := beq_eq_false_iff_ne.mpr (Ne.symm hk3)
  have b4 : ("tar_path" == k) = false := beq_eq_false_iff_ne.mpr (Ne.symm hk4)
  have b5 : ("what" == k) = false := beq_eq_false_iff_ne.mpr (Ne.symm hk5)
  have b6 : ("mode" == k) = false := beq_eq_false_iff_ne.mpr (Ne.symm hk6)
  have hrun : BackupRestoreJob.run fe fi now kwargs board s =
      ({ s with last_run := now, interval := some 1,
                iterator := some (if mode = "backup" then fe tar_path
                                  else fi tar_path) },
       board.set "backup_restore"
         ([("state", "starting"), ("percent", "0"), ("who", "all"),
           ("tar_path", tar_path),
           ("what", if mode = "backup" then "export" else "import"),
           ("mode", mode)] ++ old)) := by
    simp only [BackupRestoreJob.run, BackupRestoreJob.runBody, hidle, htar, hmode]
    rw [if_pos hvalid]
    unfold Board.update
    rw [hold]
  obtain ⟨state, ⟨who, what⟩, percent⟩ := p
  constructor
  · rw [hrun]
    refine ⟨_, Board.getTopic_set _ _ _, ?_, ?_, ?_⟩
    · simp [StrMap.get, List.find?]
    · simp [StrMap.get, List.find?]
    · simp only [StrMap.get, List.cons_append, List.nil_append, List.find?,
        b1, b2, b3, b4, b5, b6]
      exact holdk
  · have hrun2 : BackupRestoreJob.run fe fi now' kwargs
        (BackupRestoreJob.run fe fi now kwargs board s).2
        (BackupRestoreJob.run fe fi now kwargs board s).1 =
        ({ (BackupRestoreJob.run fe fi now kwargs board s).1 with
            last_run := now', iterator := some rest },
         (BackupRestoreJob.run fe fi now kwargs board s).2.set "backup_restore"
           [("state", state), ("who", who), ("what", what), ("percent", percent)]) := by
      have hit : (BackupRestoreJob.run fe fi now kwargs board s).1.iterator =
          some ((state, (who, what), percent) :: rest) := by
        rw [hrun, hseq]
      simp only [BackupRestoreJob.run, BackupRestoreJob.runBody] at hit ⊢
      rw [hit]
    rw [hrun2]
    refine ⟨_, Board.getTopic_set _ _ _, ?_, ?_, ?_⟩
    · simp [StrMap.get, List.find?]
    · simp [StrMap.get, List.find?]
    · simp only [StrMap.get, List.find?, b1, b2, b3, b5]
      rfl

/-- C10 witness: a leftover field under the topic survives the starting
publish (which also carries `tar_path` and `mode`), and all three fields
are gone once the first progress record has been published. -/
theorem backup_restore_merge_then_replace_witness :
    (∃ rec1,
      (BackupRestoreJob.run (fun _ => [("running", ("a", "files"), "10")]) (fun _ => [])
          3 [("tar_path", "/t"), ("mode", "backup")]
          ⟨[("backup_restore", [("leftover", "yes")])], []⟩ ⟨none, 0, none⟩).2.getTopic
        "backup_restore" = some rec1 ∧
      rec1.get "tar_path" = some "/t" ∧
      rec1.get "mode" = some "backup" ∧
      rec1.get "leftover" = some "yes") ∧
    (∃ rec2,
      (BackupRestoreJob.run (fun _ => [("running", ("a", "files"), "10")]) (fun _ => [])
          4 [("tar_path", "/t"), ("mode", "backup")]
          (BackupRestoreJob.run (fun _ => [("running", ("a", "files"), "10")]) (fun _ => [])
              3 [("tar_path", "/t"), ("mode", "backup")]
              ⟨[("backup_restore", [("leftover", "yes")])], []⟩ ⟨none, 0, none⟩).2
          (BackupRestoreJob.run (fun _ => [("running", ("a", "files"), "10")]) (fun _ => [])
              3 [("tar_path", "/t"), ("mode", "backup")]
              ⟨[("backup_restore", [("leftover", "yes")])], []⟩ ⟨none, 0, none⟩).1).2.getTopic
        "backup_restore" = some rec2 ∧
      rec2.get "tar_path" = none ∧
      rec2.get "mode" = none ∧
      rec2.get "leftover" = none) := by
  exact backup_restore_merge_then_replace
    (fun _ => [("running", ("a", "files"), "10")]) (fun _ => []) 3 4
    [("tar_path", "/t"), ("mode", "backup")]
    ⟨[("backup_restore", [("leftover", "yes")])], []⟩ ⟨none, 0, none⟩
    "/t" "backup" "leftover" "yes" [("leftover", "yes")]
    rfl rfl rfl (Or.inl rfl) rfl rfl
    (by decide) (by decide) (by decide) (by decide) (by decide) (by decide)
    ("running", ("a", "files"), "10") [] (by decide)

/-! ### Claim C4: dispatch is total and swallows exceptions -/

/-- Dispatch on a registered name installs the outcome of the invoked run
and its board, never looking at the exception component. -/
theorem handle_job_of_lookup_some {J : Type}
    (run : J → StrMap → Board → Nat → J × Board × Option String)
    (m : JobManager J) (name : String) (kwargs : StrMap) (now : Nat)
    (job : J) (h : m.lookup name = some job) :
    JobManager.handle_job run m name kwargs now =
      { jobs := m.jobs.map (fun p =>
          if p.1 == name then (name, (run job kwargs m.board now).1) else p),
        board := (run job kwargs m.board now).2.1 } := by
  unfold JobManager.handle_job
  rw [h]

/-- C4: dispatch never raises.  An unregistered name leaves the manager —
and hence every job state — untouched; a registered name has its job
invoked through `run`, and the outcome never depends on the exception
component the job signals: a `run` that signals differently but computes
the same states yields the same dispatch result, so no exception reaches
the caller. -/
theorem handle_job_never_raises {J : Type}
    (run : J → StrMap → Board → Nat → J × Board × Option String)
    (m : JobManager J) (name : String) (kwargs : StrMap) (now : Nat) :
    (m.lookup name = none → JobManager.handle_job run m name kwargs now = m) ∧
    (∀ job, m.lookup name = some job →
      JobManager.handle_job run m name kwargs now =
        { jobs := m.jobs.map (fun p =>
            if p.1 == name then (name, (run job kwargs m.board now).1) else p),
          board := (run job kwargs m.board now).2.1 }) ∧
    (∀ run' : J → StrMap → Board → Nat → J × Board × Option String,
      (∀ j k b n, (run' j k b n).1 = (run j k b n).1 ∧
        (run' j k b n).2.1 = (run j k b n).2.1) →
      JobManager.handle_job run' m name kwargs now =
        JobManager.handle_job run m name kwargs now) := by
  refine ⟨?_, ?_, ?_⟩
  · intro h
    unfold JobManager.handle_job
    rw [h]
  · intro job h
    exact handle_job_of_lookup_some run m name kwargs now job h
  · intro run' hagree
    unfold JobManager.handle_job
    cases h : m.lookup name with
    | none => rfl
    | some job =>
      simp only [(hagree job kwargs m.board now).1, (hagree job kwargs m.board now).2]

/-- C4 witness: dispatching an unknown name on a one-job registry is the
identity, and dispatching the known name whose body raises still returns
normally with the board preserved. -/
theorem handle_job_never_raises_witness :
    JobManager.handle_job (fun j k b n => BaseJob.run BaseJob.raise_body n k b j)
      ⟨[("LED", ⟨some 1, 0⟩)], ⟨[], []⟩⟩ "missing" [] 3 =
      ⟨[("LED", ⟨some 1, 0⟩)], ⟨[], []⟩⟩ ∧
    JobManager.handle_job (fun j k b n => BaseJob.run BaseJob.raise_body n k b j)
      ⟨[("LED", ⟨some 1, 0⟩)], ⟨[], []⟩⟩ "LED" [] 3 =
      ⟨[("LED", ⟨some 1, 3⟩)], ⟨[], []⟩⟩ := by
  have h1 := handle_job_never_raises
    (fun j k b n => BaseJob.run BaseJob.raise_body n k b j)
    (⟨[("LED", ⟨some 1, 0⟩)], ⟨[], []⟩⟩ : JobManager JobState) "missing" [] 3
  have h2 := handle_job_never_raises
    (fun j k b n => BaseJob.run BaseJob.raise_body n k b j)
    (⟨[("LED", ⟨some 1, 0⟩)], ⟨[], []⟩⟩ : JobManager JobState) "LED" [] 3
  refine ⟨h1.1 rfl, ?_⟩
  rw [h2.2.1 ⟨some 1, 0⟩ rfl]
  rfl

/-! ### Claim C6: first due job in registration order -/

/-- The scan returns nothing exactly when no registered job is due. -/
theorem scan_due_eq_none_iff {J : Type} (isDue : J → Nat → Bool)
    (l : List (String × J)) (now : Nat) :
    scan_due isDue l now = none ↔ ∀ p ∈ l, isDue p.2 now = false := by
  induction l with
  | nil => simp [scan_due]
  | cons hd tl ih =>
    obtain ⟨nm, job⟩ := hd
    by_cases h : isDue job now
    · simp [scan_due, h]
    · simp only [Bool.not_eq_true] at h
      simp [scan_due, h, ih]

/-- The scan returns the first entry of the list whose due-check holds. -/
theorem scan_due_eq_some {J : Type} (isDue : J → Nat → Bool)
    (l : List (String × J)) (now : Nat) (name : String)
    (h : scan_due isDue l now = some name) :
    ∃ (pre : List (String × J)) (j : J) (post : List (String × J)), l = pre ++ (name, j) :: post ∧ isDue j now = true ∧
      ∀ q ∈ pre, isDue q.2 now = false := by
  induction l with
  | nil => cases h
  | cons hd tl ih =>
    obtain ⟨nm, job⟩ := hd
    by_cases hd : isDue job now
    · rw [scan_due, if_pos hd] at h
      obtain rfl : nm = name := by injection h
      exact ⟨[], job, tl, rfl, hd, by simp⟩
    · rw [scan_due, if_neg hd] at h
      obtain ⟨pre, j, post, rfl, hj, hpre⟩ := ih h
      refine ⟨(nm, job) :: pre, j, post, rfl, hj, ?_⟩
      intro q hq
      rcases List.mem_cons.mp hq with rfl | hq
      · simpa using hd
      · exact hpre q hq

/-- C6: `get_recurring_job` returns nothing exactly when no registered job
is due, and a returned name is that of the first due job in registration
order (every earlier registered job is not due).  The function takes the
registry and the clock and returns only the name, so it mutates no job or
manager state, and two calls on the same state at the same instant are
definitionally equal. -/
theorem get_recurring_job_first_due (m : JobManager JobState) (now : Nat) :
    (JobManager.get_recurring_job is_due m now = none ↔
      ∀ p ∈ m.jobs, is_due p.2 now = false) ∧
    (∀ name, JobManager.get_recurring_job is_due m now = some name →
      ∃ pre j post, m.jobs = pre ++ (name, j) :: post ∧ is_due j now = true ∧
        ∀ q ∈ pre, is_due q.2 now = false) := by
  exact ⟨scan_due_eq_none_iff is_due m.jobs now,
    fun name h => scan_due_eq_some is_due m.jobs now name h⟩

/-- C6 witness: with a not-due job registered first and a due job second,
the scan skips the first and returns the second name. -/
theorem get_recurring_job_first_due_witness :
    ∃ (pre : List (String × JobState)) (j : JobState) (post : List (String × JobState)),
      [("A", (⟨none, 0⟩ : JobState)), ("B", ⟨some 1, 0⟩)] = pre ++ ("B", j) :: post ∧
      is_due j 5 = true ∧ ∀ q ∈ pre, is_due q.2 5 = false := by
  have h := get_recurring_job_first_due
    ⟨[("A", ⟨none, 0⟩), ("B", ⟨some 1, 0⟩)], ⟨[], []⟩⟩ 5
  exact h.2 "B" (by decide)

/-! ### Claim C8: registration replaces by name -/

/-- Overwriting the entries of a name does not change the key sequence. -/
theorem keys_map_replace {J : Type} (name : String) (j : J)
    (l : List (String × J)) :
    (l.map (fun p => if p.1 == name then (name, j) else p)).map Prod.fst =
      l.map Prod.fst := by
  induction l with
  | nil => rfl
  | cons hd tl ih =>
    simp only [List.map_cons, ih, List.cons.injEq, and_true]
    by_cases h : hd.1 == name
    · rw [if_pos h]
      exact (beq_iff_eq.mp h).symm
    · rw [if_neg h]

/-- When a name is present, lookup after overwrite finds the new value. -/
theorem find?_map_replace {J : Type} (name : String) (j : J)
    (l : List (String × J)) (h : l.any (fun p => p.1 == name) = true) :
    (l.map (fun p => if p.1 == name then (name, j) else p)).find?
      (fun p => p.1 == name) = some (name, j) := by
  induction l with
  | nil => simp at h
  | cons hd tl ih =>
    simp only [List.map_cons]
    by_cases hh : hd.1 == name
    · rw [if_pos hh]
      exact List.find?_cons_of_pos _ (by simp)
    · rw [if_neg hh]
      simp only [Bool.not_eq_true] at hh
      simp only [List.find?, hh]
      apply ih
      simp only [List.any_cons, hh, Bool.false_or] at h
      exact h

/-- The key sequence after `register_job`: unchanged if the name was
present, else extended by the name. -/
theorem keys_register_job {J : Type} (m : JobManager J) (name : String) (j : J) :
    ((m.register_job name j).jobs.map Prod.fst) =
      if m.jobs.any (fun p => p.1 == name) then m.jobs.map Prod.fst
      else m.jobs.map Prod.fst ++ [name] := by
  unfold JobManager.register_job
  by_cases h : m.jobs.any (fun p => p.1 == name)
  · rw [if_pos h, if_pos h]
    exact keys_map_replace name j m.jobs
  · rw [if_neg h, if_neg h]
    simp

/-- A registered name is always found, bound to the registered instance. -/
theorem lookup_register_self {J : Type} (m : JobManager J) (name : String)
    (j : J) : (m.register_job name j).lookup name = some j := by
  unfold JobManager.register_job JobManager.lookup
  by_cases h : m.jobs.any (fun p => p.1 == name)
  · rw [if_pos h]
    simp only
    rw [find?_map_replace name j m.jobs h]
    rfl
  · rw [if_neg h]
    simp only
    have hfalse : m.jobs.any (fun p => p.1 == name) = false := Bool.eq_false_iff.mpr h
    have hnone : m.jobs.find? (fun p => p.1 == name) = none := by
      apply List.find?_eq_none.mpr
      intro x hx hxn
      exact List.any_eq_false.mp hfalse x hx hxn
    rw [List.find?_append, hnone, Option.none_or,
      List.find?_cons_of_pos _ (by simp)]
    rfl

/-- C8: registering preserves the no-two-instances-per-name invariant
(starting from a duplicate-free registry, the key list stays
duplicate-free); registering a second job under an existing name keeps
exactly one entry for that name, bound to the second instance; and a
subsequent dispatch by that name reaches the second instance: its `run`
result is what lands in the registry and on the board. -/
theorem register_job_replaces {J : Type} (m : JobManager J) (name : String)
    (j1 j2 : J) (run : J → StrMap → Board → Nat → J × Board × Option String)
    (kwargs : StrMap) (now : Nat)
    (hnodup : (m.jobs.map Prod.fst).Nodup) :
    (∀ (nm : String) (j : J), ((m.register_job nm j).jobs.map Prod.fst).Nodup) ∧
    ((m.register_job name j1).register_job name j2).lookup name = some j2 ∧
    ((((m.register_job name j1).register_job name j2).jobs.map Prod.fst).count name = 1) ∧
    (JobManager.handle_job run ((m.register_job name j1).register_job name j2)
        name kwargs now).board =
      (run j2 kwargs ((m.register_job name j1).register_job name j2).board now).2.1 ∧
    (JobManager.handle_job run ((m.register_job name j1).register_job name j2)
        name kwargs now).lookup name =
      some (run j2 kwargs ((m.register_job name j1).register_job name j2).board now).1 := by
  have hnd : ∀ (m' : JobManager J), (m'.jobs.map Prod.fst).Nodup →
      ∀ (nm : String) (j : J), ((m'.register_job nm j).jobs.map Prod.fst).Nodup := by
    intro m' hm' nm j
    rw [keys_register_job]
    by_cases h : m'.jobs.any (fun p => p.1 == nm)
    · rwa [if_pos h]
    · rw [if_neg h]
      rw [List.nodup_append]
      refine ⟨hm', List.nodup_singleton nm, ?_⟩
      rw [List.disjoint_singleton]
      intro hmem
      obtain ⟨p, hp, hpn⟩ := List.mem_map.mp hmem
      have hfalse : m'.jobs.any (fun p => p.1 == nm) = false := Bool.eq_false_iff.mpr h
      exact List.any_eq_false.mp hfalse p hp (beq_iff_eq.mpr hpn)
  set m2 := (m.register_job name j1).register_job name j2 with hm2
  have hlk2 : m2.lookup name = some j2 := lookup_register_self _ name j2
  have hnodup2 : (m2.jobs.map Prod.fst).Nodup :=
    hnd _ (hnd m hnodup name j1) name j2
  have hmem2 : name ∈ m2.jobs.map Prod.fst := by
    unfold JobManager.lookup at hlk2
    cases hf : m2.jobs.find? (fun p => p.1 == name) with
    | none => rw [hf] at hlk2; cases hlk2
    | some p =>
      have hp := List.mem_of_find?_eq_some hf
      have hpn : p.1 = name := by simpa using List.find?_some hf
      exact List.mem_map.mpr ⟨p, hp, hpn⟩
  have hcount : ((m2.jobs.map Prod.fst).count name = 1) :=
    List.count_eq_one_of_mem hnodup2 hmem2
  have hrun := handle_job_of_lookup_some run m2 name kwargs now j2 hlk2
  refine ⟨hnd m hnodup, hlk2, hcount, ?_, ?_⟩
  · rw [hrun]
  · rw [hrun]
    show Option.map _ (List.find? _ (m2.jobs.map _)) = _
    have hany : m2.jobs.any (fun p => p.1 == name) = true := by
      rw [List.any_eq_true]
      obtain ⟨p, hp, hpn⟩ := List.mem_map.mp hmem2
      exact ⟨p, hp, beq_iff_eq.mpr hpn⟩
    rw [find?_map_replace name _ m2.jobs hany]
    rfl

/-- C8 witness: on an initially empty registry, registering two jobs under
the same name keeps exactly one entry holding the second instance, which a
dispatch by that name then runs (here the raising base body, whose
exception is swallowed while its timestamp update lands in the registry). -/
theorem register_job_replaces_witness :
    ((JobManager.register_job
        (JobManager.register_job ⟨[], ⟨[], []⟩⟩ "LED" (⟨some 1, 0⟩ : JobState))
        "LED" ⟨none, 7⟩).lookup "LED" = some ⟨none, 7⟩) ∧
    ((((JobManager.register_job
        (JobManager.register_job ⟨[], ⟨[], []⟩⟩ "LED" (⟨some 1, 0⟩ : JobState))
        "LED" ⟨none, 7⟩).jobs.map Prod.fst).count "LED") = 1) ∧
    ((JobManager.handle_job (fun j k b n => BaseJob.run BaseJob.raise_body n k b j)
        (JobManager.register_job
          (JobManager.register_job ⟨[], ⟨[], []⟩⟩ "LED" (⟨some 1, 0⟩ : JobState))
          "LED" ⟨none, 7⟩) "LED" [] 42).lookup "LED" = some ⟨none, 42⟩) := by
  have h := register_job_replaces (⟨[], ⟨[], []⟩⟩ : JobManager JobState) "LED"
    ⟨some 1, 0⟩ ⟨none, 7⟩ (fun j k b n => BaseJob.run BaseJob.raise_body n k b j)
    [] 42 (by simp)
  exact ⟨h.2.1, h.2.2.1, h.2.2.2.2⟩

end Nextbox
